import Mathlib

/-!
Verification of the span-annotation and conflict-resolution engine of
libtextclassifier against its design specification.

The repository ships the test suite (`text-classifier_test.cc`) and the
TfLite executor header (`utils/tflite-model-executor.h`); the core
`text-classifier.cc` implementation is not part of the source tree, so the
core operations (the conflict resolver, the selection refiner, the
confidence filter, classification and annotation pipelines) are modelled
from the specification text, and checked against the behaviour recorded in
the test suite.
-/

namespace TextClassifier

/-- A codepoint span: a half-open interval `[start, end)`, stored as a pair
of integers (the C++ `CodepointSpan` is `std::pair<int, int>`; negative and
out-of-range values do occur in the tests). -/
abbrev CodepointSpan := Int × Int

/-- A `(collection, score)` classification result, as in the C++
`ClassificationResult` used by the tests.  Scores are modelled as rationals
(the tests only use exact decimal constants). -/
structure ClassificationResult where
  collection : String
  score : ℚ
  deriving DecidableEq, Repr

/-- An annotated span / candidate: a span plus an ordered list of
classification results (best first), as built by `MakeAnnotatedSpan` in the
test suite. -/
structure AnnotatedSpan where
  span : CodepointSpan
  classification : List ClassificationResult
  deriving DecidableEq, Repr

instance : Inhabited AnnotatedSpan := ⟨⟨(0, 0), []⟩⟩

/-- Function `FirstResult` from the test suite: the collection of the best
classification, or the sentinel on an empty result list. -/
def FirstResult (results : List ClassificationResult) : String :=
  match results with
  | [] => "<INVALID RESULTS>"
  | r :: _ => r.collection

/-- Helper `MakeAnnotatedSpan` from the test suite: a candidate with a single
classification result. -/
def MakeAnnotatedSpan (span : CodepointSpan) (collection : String)
    (score : ℚ) : AnnotatedSpan :=
  ⟨span, [⟨collection, score⟩]⟩

/-- Best-class collection name of a candidate. -/
def bestCollection (c : AnnotatedSpan) : String :=
  FirstResult c.classification

/-- Best-class score of a candidate (0 for an empty classification list). -/
def bestScore (c : AnnotatedSpan) : ℚ :=
  match c.classification with
  | [] => 0
  | r :: _ => r.score

/-- Modelled from the spec: `source_priority` of a candidate "defaults to
the classification score when not otherwise specified" (§3); the test
candidates carry no separate priority. -/
def sourcePriority (c : AnnotatedSpan) : ℚ :=
  bestScore c

/-- Modelled from the spec (§4.4 step 1): the precedence tier of a
candidate — Tier A (0) for a specific best label, Tier B (1) for the
reserved "other" label. -/
def tier (c : AnnotatedSpan) : ℕ :=
  if bestCollection c = "other" then 1 else 0

/-- The open-interval span intersection test of the spec (§4.4 step 3):
`a.start < b.end && b.start < a.end`. -/
def spanOverlap (a b : CodepointSpan) : Bool :=
  decide (a.1 < b.2) && decide (b.1 < a.2)

/-- Lexicographic "comes no later" order on sort keys
`(tier, -score, -priority, index)`. -/
def lexKeyLE (a b : ℕ × ℚ × ℚ × ℕ) : Prop :=
  a.1 < b.1 ∨ a.1 = b.1 ∧
    (a.2.1 < b.2.1 ∨ a.2.1 = b.2.1 ∧
      (a.2.2.1 < b.2.2.1 ∨ a.2.2.1 = b.2.2.1 ∧ a.2.2.2 ≤ b.2.2.2))

instance : DecidableRel lexKeyLE := fun a b => by
  unfold lexKeyLE; infer_instance

/-- Modelled from the spec (§4.4 step 2): the sort key of pool index `i` —
tier ascending, best-class score descending, source priority descending,
original pool index ascending (scores are negated so that the single
ascending lexicographic order realizes the descending comparisons). -/
def candKey (pool : List AnnotatedSpan) (i : ℕ) : ℕ × ℚ × ℚ × ℕ :=
  let c := pool.getD i default
  (tier c, -bestScore c, -sourcePriority c, i)

/-- Candidate processing order of the conflict resolver: `i` is considered
no later than `j`. -/
def candLE (pool : List AnnotatedSpan) (i j : ℕ) : Prop :=
  lexKeyLE (candKey pool i) (candKey pool j)

instance (pool : List AnnotatedSpan) : DecidableRel (candLE pool) :=
  fun i j => by unfold candLE; infer_instance

/-- One greedy step of the conflict resolver (§4.4 step 3): accept
candidate `i` iff its span overlaps no already-accepted span. -/
def acceptStep (pool : List AnnotatedSpan) (acc : List ℕ) (i : ℕ) :
    List ℕ :=
  if acc.any (fun j =>
      spanOverlap (pool.getD i default).span (pool.getD j default).span)
  then acc else acc ++ [i]

/-- The greedy pass over the ordered candidate indices. -/
def greedy (pool : List AnnotatedSpan) (order : List ℕ) : List ℕ :=
  order.foldl (acceptStep pool) []

/-- Output order of the resolver (§4.4 step 4): span start ascending, with
the pool index as a deterministic tie-break. -/
def startLE (pool : List AnnotatedSpan) (i j : ℕ) : Prop :=
  (pool.getD i default).span.1 < (pool.getD j default).span.1 ∨
    ((pool.getD i default).span.1 = (pool.getD j default).span.1 ∧ i ≤ j)

instance (pool : List AnnotatedSpan) : DecidableRel (startLE pool) :=
  fun i j => by unfold startLE; infer_instance

/-- Combined tier-then-score processing order of the conflict resolver:
all pool indices, sorted by `candLE`. -/
def candOrder (pool : List AnnotatedSpan) : List ℕ :=
  List.insertionSort (candLE pool) (List.range pool.length)

/-- Modelled from the spec: `TextClassifier::ResolveConflicts` (§4.4,
tiered greedy interval selection; the C++ implementation is not in the
source tree).  Takes the candidate pool, returns the chosen pool indices:
sort indices by tier / score / priority / index, greedily accept
non-overlapping spans in that order, and re-sort the accepted indices by
span start. -/
def ResolveConflicts (pool : List AnnotatedSpan) : List ℕ :=
  List.insertionSort (startLE pool) (greedy pool (candOrder pool))

/-- The candidate pool of the `ResolveConflictsFiveSpans` test. -/
def fiveSpansPool : List AnnotatedSpan :=
  [MakeAnnotatedSpan (0, 3) "phone" (mkRat 5 10),
   MakeAnnotatedSpan (1, 5) "other" 1,
   MakeAnnotatedSpan (3, 7) "phone" (mkRat 6 10),
   MakeAnnotatedSpan (8, 12) "phone" (mkRat 6 10),
   MakeAnnotatedSpan (11, 15) "phone" (mkRat 9 10)]

/-- The candidate pool of the `ResolveConflictsSequence` test: five
pairwise adjacent (touching, non-overlapping) unit spans. -/
def sequencePool : List AnnotatedSpan :=
  [MakeAnnotatedSpan (0, 1) "phone" 1,
   MakeAnnotatedSpan (1, 2) "phone" 1,
   MakeAnnotatedSpan (2, 3) "phone" 1,
   MakeAnnotatedSpan (3, 4) "phone" 1,
   MakeAnnotatedSpan (4, 5) "phone" 1]

/-- Two pool indices whose candidate spans pass the open-interval
disjointness test. -/
def NoOv (pool : List AnnotatedSpan) (i j : ℕ) : Prop :=
  spanOverlap (pool.getD i default).span (pool.getD j default).span = false

lemma spanOverlap_comm (a b : CodepointSpan) :
    spanOverlap a b = spanOverlap b a := by
  unfold spanOverlap
  exact Bool.and_comm _ _

lemma noOv_symm (pool : List AnnotatedSpan) :
    Symmetric (NoOv pool) := by
  intro i j h
  unfold NoOv at h ⊢
  rw [spanOverlap_comm]
  exact h

lemma mem_foldl_acceptStep (pool : List AnnotatedSpan) :
    ∀ (order acc : List ℕ) (x : ℕ), x ∈ acc →
      x ∈ order.foldl (acceptStep pool) acc := by
  intro order
  induction order with
  | nil => intro acc x hx; simpa using hx
  | cons i rest ih =>
      intro acc x hx
      simp only [List.foldl_cons]
      apply ih
      unfold acceptStep
      split
      · exact hx
      · exact List.mem_append_left _ hx

lemma foldl_acceptStep_subset (pool : List AnnotatedSpan) :
    ∀ (order acc : List ℕ) (x : ℕ),
      x ∈ order.foldl (acceptStep pool) acc → x ∈ acc ∨ x ∈ order := by
  intro order
  induction order with
  | nil => intro acc x hx; exact Or.inl (by simpa using hx)
  | cons i rest ih =>
      intro acc x hx
      simp only [List.foldl_cons] at hx
      rcases ih _ x hx with h | h
      · unfold acceptStep at h
        split at h
        · exact Or.inl h
        · rcases List.mem_append.mp h with h | h
          · exact Or.inl h
          · simp only [List.mem_singleton] at h
            exact Or.inr (h ▸ List.mem_cons_self _ _)
      · exact Or.inr (List.mem_cons_of_mem _ h)

lemma foldl_acceptStep_pairwise (pool : List AnnotatedSpan) :
    ∀ (order acc : List ℕ), acc.Pairwise (NoOv pool) →
      (order.foldl (acceptStep pool) acc).Pairwise (NoOv pool) := by
  intro order
  induction order with
  | nil => intro acc h; simpa using h
  | cons i rest ih =>
      intro acc h
      simp only [List.foldl_cons]
      apply ih
      unfold acceptStep
      split
      · exact h
      · rename_i hany
        rw [List.any_eq_true] at hany
        push_neg at hany
        rw [List.pairwise_append]
        refine ⟨h, List.pairwise_singleton _ _, ?_⟩
        intro a ha b hb
        simp only [List.mem_singleton] at hb
        subst hb
        have := hany a ha
        unfold NoOv
        rw [spanOverlap_comm]
        simpa using this

lemma foldl_acceptStep_blocked (pool : List AnnotatedSpan)
    (R : ℕ → ℕ → Prop) :
    ∀ (order acc : List ℕ) (x : ℕ), order.Pairwise R → x ∈ order →
      x ∉ order.foldl (acceptStep pool) acc →
      ∃ k, k ∈ order.foldl (acceptStep pool) acc ∧
        spanOverlap (pool.getD x default).span (pool.getD k default).span
          = true ∧ (k ∈ acc ∨ R k x) := by
  intro order
  induction order with
  | nil => intro acc x _ hx; exact absurd hx (List.not_mem_nil x)
  | cons i rest ih =>
      intro acc x hpw hx hnot
      simp only [List.foldl_cons] at hnot ⊢
      rcases List.pairwise_cons.mp hpw with ⟨hi, hrest⟩
      rcases List.mem_cons.mp hx with rfl | hxrest
      · -- x is the head: it was either accepted now (contradiction) or
        -- blocked by a member of acc
        by_cases hany : (acc.any (fun j =>
            spanOverlap (pool.getD x default).span
              (pool.getD j default).span)) = true
        · rcases List.any_eq_true.mp hany with ⟨k, hk, hov⟩
          refine ⟨k, ?_, by simpa using hov, Or.inl hk⟩
          have hkeep : k ∈ acceptStep pool acc x := by
            unfold acceptStep
            rw [if_pos hany]
            exact hk
          exact mem_foldl_acceptStep pool rest _ k hkeep
        · exfalso
          apply hnot
          have : x ∈ acceptStep pool acc x := by
            unfold acceptStep
            rw [if_neg hany]
            exact List.mem_append_right _ (List.mem_singleton.mpr rfl)
          exact mem_foldl_acceptStep pool rest _ x this
      · rcases ih (acceptStep pool acc i) x hrest hxrest hnot with
          ⟨k, hkmem, hov, hk⟩
        refine ⟨k, hkmem, hov, ?_⟩
        rcases hk with hk | hk
        · unfold acceptStep at hk
          split at hk
          · exact Or.inl hk
          · rcases List.mem_append.mp hk with hk | hk
            · exact Or.inl hk
            · simp only [List.mem_singleton] at hk
              subst hk
              exact Or.inr (hi x hxrest)
        · exact Or.inr hk

lemma lexKeyLE_total (a b : ℕ × ℚ × ℚ × ℕ) : lexKeyLE a b ∨ lexKeyLE b a := by
  unfold lexKeyLE
  rcases lt_trichotomy a.1 b.1 with h1 | h1 | h1
  · exact Or.inl (Or.inl h1)
  · rcases lt_trichotomy a.2.1 b.2.1 with h2 | h2 | h2
    · exact Or.inl (Or.inr ⟨h1, Or.inl h2⟩)
    · rcases lt_trichotomy a.2.2.1 b.2.2.1 with h3 | h3 | h3
      · exact Or.inl (Or.inr ⟨h1, Or.inr ⟨h2, Or.inl h3⟩⟩)
      · rcases Nat.le_total a.2.2.2 b.2.2.2 with h4 | h4
        · exact Or.inl (Or.inr ⟨h1, Or.inr ⟨h2, Or.inr ⟨h3, h4⟩⟩⟩)
        · exact Or.inr (Or.inr ⟨h1.symm, Or.inr ⟨h2.symm, Or.inr ⟨h3.symm, h4⟩⟩⟩)
      · exact Or.inr (Or.inr ⟨h1.symm, Or.inr ⟨h2.symm, Or.inl h3⟩⟩)
    · exact Or.inr (Or.inr ⟨h1.symm, Or.inl h2⟩)
  · exact Or.inr (Or.inl h1)

lemma lexKeyLE_trans (a b c : ℕ × ℚ × ℚ × ℕ) :
    lexKeyLE a b → lexKeyLE b c → lexKeyLE a c := by
  intro hab hbc
  unfold lexKeyLE at hab hbc ⊢
  rcases hab with h1 | ⟨e1, hab⟩
  · rcases hbc with h1' | ⟨e1', _⟩
    · exact Or.inl (h1.trans h1')
    · exact Or.inl (e1' ▸ h1)
  · rcases hbc with h1' | ⟨e1', hbc⟩
    · exact Or.inl (e1 ▸ h1')
    · refine Or.inr ⟨e1.trans e1', ?_⟩
      rcases hab with h2 | ⟨e2, hab⟩
      · rcases hbc with h2' | ⟨e2', _⟩
        · exact Or.inl (h2.trans h2')
        · exact Or.inl (e2' ▸ h2)
      · rcases hbc with h2' | ⟨e2', hbc⟩
        · exact Or.inl (e2 ▸ h2')
        · refine Or.inr ⟨e2.trans e2', ?_⟩
          rcases hab with h3 | ⟨e3, hab⟩
          · rcases hbc with h3' | ⟨e3', _⟩
            · exact Or.inl (h3.trans h3')
            · exact Or.inl (e3' ▸ h3)
          · rcases hbc with h3' | ⟨e3', hbc⟩
            · exact Or.inl (e3 ▸ h3')
            · exact Or.inr ⟨e3.trans e3', hab.trans hbc⟩

instance (pool : List AnnotatedSpan) : IsTotal ℕ (candLE pool) :=
  ⟨fun _ _ => lexKeyLE_total _ _⟩

instance (pool : List AnnotatedSpan) : IsTrans ℕ (candLE pool) :=
  ⟨fun _ _ _ => lexKeyLE_trans _ _ _⟩

instance (pool : List AnnotatedSpan) : IsTotal ℕ (startLE pool) := by
  constructor
  intro i j
  unfold startLE
  rcases lt_trichotomy (pool.getD i default).span.1
    (pool.getD j default).span.1 with h | h | h
  · exact Or.inl (Or.inl h)
  · rcases Nat.le_total i j with h2 | h2
    · exact Or.inl (Or.inr ⟨h, h2⟩)
    · exact Or.inr (Or.inr ⟨h.symm, h2⟩)
  · exact Or.inr (Or.inl h)

instance (pool : List AnnotatedSpan) : IsTrans ℕ (startLE pool) := by
  constructor
  intro i j k hij hjk
  unfold startLE at hij hjk ⊢
  rcases hij with h | ⟨e, h⟩
  · rcases hjk with h' | ⟨e', _⟩
    · exact Or.inl (h.trans h')
    · exact Or.inl (e' ▸ h)
  · rcases hjk with h' | ⟨e', h'⟩
    · exact Or.inl (e ▸ h')
    · exact Or.inr ⟨e.trans e', h.trans h'⟩

lemma mem_resolveConflicts_iff (pool : List AnnotatedSpan) (i : ℕ) :
    i ∈ ResolveConflicts pool ↔ i ∈ greedy pool (candOrder pool) :=
  (List.perm_insertionSort (startLE pool) _).mem_iff

lemma mem_candOrder_iff (pool : List AnnotatedSpan) (i : ℕ) :
    i ∈ candOrder pool ↔ i < pool.length := by
  unfold candOrder
  rw [(List.perm_insertionSort (candLE pool) _).mem_iff]
  exact List.mem_range

lemma candOrder_pairwise (pool : List AnnotatedSpan) :
    (candOrder pool).Pairwise (candLE pool) :=
  List.sorted_insertionSort (candLE pool) _

lemma greedy_pairwise_noOv (pool : List AnnotatedSpan) :
    (greedy pool (candOrder pool)).Pairwise (NoOv pool) :=
  foldl_acceptStep_pairwise pool _ [] List.Pairwise.nil

lemma resolveConflicts_pairwise_noOv (pool : List AnnotatedSpan) :
    (ResolveConflicts pool).Pairwise (NoOv pool) := by
  have hperm := List.perm_insertionSort (startLE pool)
    (greedy pool (candOrder pool))
  exact (hperm.pairwise_iff (fun {x y} h => noOv_symm pool h)).mpr
    (greedy_pairwise_noOv pool)

lemma resolveConflicts_sorted_start (pool : List AnnotatedSpan) :
    (ResolveConflicts pool).Pairwise (startLE pool) :=
  List.sorted_insertionSort (startLE pool) _

lemma tier_eq_zero_iff (c : AnnotatedSpan) :
    tier c = 0 ↔ bestCollection c ≠ "other" := by
  unfold tier
  split <;> simp_all

/-- A pool in which the "other" candidate (index 2) is selected while a
non-"other" candidate (index 1) it overlaps is rejected — the rejection is
caused by the accepted non-"other" candidate 0, not by the "other" one. -/
def tierWitnessPool : List AnnotatedSpan :=
  [MakeAnnotatedSpan (0, 4) "phone" (mkRat 9 10),
   MakeAnnotatedSpan (2, 7) "phone" (mkRat 5 10),
   MakeAnnotatedSpan (5, 9) "other" 1]

/-- C1: for the candidate pool
`[(0,3,"phone",0.5), (1,5,"other",1.0), (3,7,"phone",0.6),
(8,12,"phone",0.6), (11,15,"phone",0.9)]` the conflict resolver selects
exactly the candidates at pool indices 0, 2 and 4: the "other" candidate
with the highest numeric score is rejected because non-"other" candidates
are tiered above it, and `(8,12)` is rejected because it overlaps the
already-accepted higher-scored `(11,15)`. -/
theorem resolveConflicts_five_spans :
    ResolveConflicts fiveSpansPool = [0, 2, 4] := by decide

/-- C2: for every candidate pool containing an "other"-labeled candidate
whose span overlaps a non-"other" candidate's span, the resolver never
selects the "other" candidate in place of the non-"other" one: if the
"other" candidate `i` is selected while overlapping the non-"other"
candidate `j`, then `j` is not selected, and `j` was displaced by some
selected non-"other" candidate `k` whose span overlaps `j`'s span — never
by the "other" candidate (non-"other" candidates are always considered
before any "other" candidate). -/
theorem resolver_tier_precedence (pool : List AnnotatedSpan) (i j : ℕ)
    (hj : j < pool.length)
    (hoth : bestCollection (pool.getD i default) = "other")
    (hnon : bestCollection (pool.getD j default) ≠ "other")
    (hov : spanOverlap (pool.getD i default).span
      (pool.getD j default).span = true)
    (hsel : i ∈ ResolveConflicts pool) :
    j ∉ ResolveConflicts pool ∧
      ∃ k, k ∈ ResolveConflicts pool ∧
        bestCollection (pool.getD k default) ≠ "other" ∧
        spanOverlap (pool.getD k default).span
          (pool.getD j default).span = true := by
  have hij : i ≠ j := fun h => hnon (h ▸ hoth)
  have hG : i ∈ greedy pool (candOrder pool) :=
    (mem_resolveConflicts_iff pool i).mp hsel
  have hjG : j ∉ greedy pool (candOrder pool) := by
    intro hjG
    have hno : NoOv pool i j :=
      (greedy_pairwise_noOv pool).forall (noOv_symm pool) hG hjG hij
    unfold NoOv at hno
    rw [hov] at hno
    cases hno
  refine ⟨fun h => hjG ((mem_resolveConflicts_iff pool j).mp h), ?_⟩
  have hjo : j ∈ candOrder pool := (mem_candOrder_iff pool j).mpr hj
  obtain ⟨k, hkG, hkov, hk⟩ :=
    foldl_acceptStep_blocked pool (candLE pool) (candOrder pool) [] j
      (candOrder_pairwise pool) hjo hjG
  rcases hk with hk | hk
  · exact absurd hk (List.not_mem_nil k)
  · have htj : tier (pool.getD j default) = 0 := (tier_eq_zero_iff _).mpr hnon
    have htk : tier (pool.getD k default) = 0 := by
      simp only [candLE, lexKeyLE, candKey] at hk
      rcases hk with h1 | ⟨e1, _⟩
      · omega
      · omega
    refine ⟨k, (mem_resolveConflicts_iff pool k).mpr hkG,
      (tier_eq_zero_iff _).mp htk, ?_⟩
    rw [spanOverlap_comm]
    exact hkov

/-- Closed-form witness for the tier-precedence theorem: in
`tierWitnessPool` the "other" candidate 2 is selected, overlaps the
rejected non-"other" candidate 1, and candidate 1 was displaced by a
selected non-"other" candidate. -/
theorem resolver_tier_precedence_witness :
    1 ∉ ResolveConflicts tierWitnessPool ∧
      ∃ k, k ∈ ResolveConflicts tierWitnessPool ∧
        bestCollection (tierWitnessPool.getD k default) ≠ "other" ∧
        spanOverlap (tierWitnessPool.getD k default).span
          (tierWitnessPool.getD 1 default).span = true :=
  resolver_tier_precedence tierWitnessPool 2 1 (by decide) (by decide)
    (by decide) (by decide) (by decide)

/-- Modelled from the spec: the confidence filter (§4.3) — drop candidates
whose best classification score falls below the threshold. -/
def filterByScore (threshold : ℚ) (l : List AnnotatedSpan) :
    List AnnotatedSpan :=
  l.filter (fun c => decide (threshold ≤ bestScore c))

/-- The candidates selected by the conflict resolver, in output order. -/
def resolvedList (pool : List AnnotatedSpan) : List AnnotatedSpan :=
  (ResolveConflicts pool).map (fun i => pool.getD i default)

/-- Modelled from the spec: the `annotate` pipeline (§4.3, §4.5, §6; the
C++ implementation is not in the source tree).  The merged candidate pool
is the black-box detector input; it is confidence-filtered, run through
the conflict resolver, and the committed result is filtered again before
being returned. -/
def annotate (pool : List AnnotatedSpan) (threshold : ℚ) :
    List AnnotatedSpan :=
  filterByScore threshold (resolvedList (filterByScore threshold pool))

lemma resolveConflicts_lt_length (pool : List AnnotatedSpan) (i : ℕ)
    (h : i ∈ ResolveConflicts pool) : i < pool.length := by
  have hG := (mem_resolveConflicts_iff pool i).mp h
  rcases foldl_acceptStep_subset pool (candOrder pool) [] i hG with h0 | h0
  · exact absurd h0 (List.not_mem_nil i)
  · exact (mem_candOrder_iff pool i).mp h0

lemma getD_mem_of_lt {l : List AnnotatedSpan} {i : ℕ} (h : i < l.length) :
    l.getD i default ∈ l := by
  rw [List.getD_eq_getElem?_getD, List.getElem?_eq_getElem h]
  exact List.getElem_mem h

lemma mem_resolvedList (pool : List AnnotatedSpan) (x : AnnotatedSpan)
    (hx : x ∈ resolvedList pool) : x ∈ pool := by
  unfold resolvedList at hx
  rcases List.mem_map.mp hx with ⟨i, hi, rfl⟩
  exact getD_mem_of_lt (resolveConflicts_lt_length pool i hi)

/-- C3: every result list returned by annotate is pairwise non-overlapping
(for every pair of distinct result spans `a` before `b`,
`a.end ≤ b.start ∨ b.end ≤ a.start`) and is sorted ascending by span
start; spans that merely touch may coexist, as on the five adjacent unit
spans of the `ResolveConflictsSequence` test, which are all selected. -/
theorem annotate_nonoverlap_sorted :
    (∀ (pool : List AnnotatedSpan) (threshold : ℚ),
      (annotate pool threshold).Pairwise (fun a b =>
        (a.span.2 ≤ b.span.1 ∨ b.span.2 ≤ a.span.1) ∧
          a.span.1 ≤ b.span.1)) ∧
    ResolveConflicts sequencePool = [0, 1, 2, 3, 4] := by
  constructor
  · intro pool threshold
    set q := filterByScore threshold pool with hq
    have h1 : (ResolveConflicts q).Pairwise (NoOv q) :=
      resolveConflicts_pairwise_noOv q
    have h2 : (ResolveConflicts q).Pairwise (startLE q) :=
      resolveConflicts_sorted_start q
    have h3 : (resolvedList q).Pairwise (fun a b =>
        (a.span.2 ≤ b.span.1 ∨ b.span.2 ≤ a.span.1) ∧
          a.span.1 ≤ b.span.1) := by
      unfold resolvedList
      rw [List.pairwise_map]
      refine (h1.and h2).imp ?_
      intro i j ⟨hno, hst⟩
      constructor
      · unfold NoOv spanOverlap at hno
        simp only [Bool.and_eq_false_iff, decide_eq_false_iff_not,
          not_lt] at hno
        rcases hno with h | h
        · exact Or.inr h
        · exact Or.inl h
      · unfold startLE at hst
        rcases hst with h | ⟨h, _⟩
        · exact le_of_lt h
        · exact le_of_eq h
    exact h3.filter _
  · decide

/-- A small well-scored pool used to witness the confidence-filter
extremes. -/
def filterWitnessPool : List AnnotatedSpan :=
  [MakeAnnotatedSpan (0, 2) "phone" 1,
   MakeAnnotatedSpan (5, 6) "other" (mkRat 3 10)]

/-- C7: provided every candidate score lies in `[0, 1]`, the confidence
filter with threshold 0 keeps every candidate (including "other"-labeled
ones), so the committed annotate result is exactly the resolver output;
and with threshold 2 (greater than the maximal possible score) every
candidate is discarded, so annotate returns the empty list.  Both are
supported configurations, not errors. -/
theorem confidence_filter_extremes (pool : List AnnotatedSpan)
    (h : ∀ c ∈ pool, 0 ≤ bestScore c ∧ bestScore c ≤ 1) :
    filterByScore 0 pool = pool ∧ annotate pool 0 = resolvedList pool ∧
      annotate pool 2 = [] := by
  have hid : filterByScore 0 pool = pool := by
    unfold filterByScore
    rw [List.filter_eq_self]
    intro c hc
    simpa using (h c hc).1
  refine ⟨hid, ?_, ?_⟩
  · unfold annotate
    rw [hid]
    unfold filterByScore
    rw [List.filter_eq_self]
    intro c hc
    simpa using (h c (mem_resolvedList pool c hc)).1
  · unfold annotate
    have hnil : filterByScore 2 pool = [] := by
      unfold filterByScore
      rw [List.filter_eq_nil_iff]
      intro c hc
      have := (h c hc).2
      simp only [decide_eq_true_eq]
      intro hcontra
      linarith
    rw [hnil]
    rfl

/-- Closed-form witness for the confidence-filter extremes, on a concrete
two-candidate pool. -/
theorem confidence_filter_extremes_witness :
    filterByScore 0 filterWitnessPool = filterWitnessPool ∧
      annotate filterWitnessPool 0 = resolvedList filterWitnessPool ∧
      annotate filterWitnessPool 2 = [] :=
  confidence_filter_extremes filterWitnessPool (by decide)

/-! ## Selection refiner (modelled from the spec, §4.2) -/

/-- Character lookup at an integer codepoint index, with a blank as the
out-of-range default (the refiner only reads in-range positions on the
paths where the default matters to nothing). -/
def charAt (text : List Char) (i : Int) : Char :=
  text.getD i.toNat ' '

def isOpenBracket (c : Char) : Bool :=
  c = '(' || c = '['

def isCloseBracket (c : Char) : Bool :=
  c = ')' || c = ']'

def closeOf (c : Char) : Char :=
  if c = '(' then ')' else ']'

def openOf (c : Char) : Char :=
  if c = ')' then '(' else '['

/-- Does character `ch` occur at some position in `[s, e)` of the text? -/
def hasCharIn (text : List Char) (ch : Char) (s e : Int) : Bool :=
  ((text.drop s.toNat).take (e - s).toNat).any (fun c => c = ch)

/-- Modelled from the spec (§4.2): the leading character of span `[s, e)`
survives trimming iff it is alphanumeric, or it is an open bracket matched
by its closing bracket inside the selection (a balanced pair is
preserved; an unmatched one is stripped). -/
def keepLeft (text : List Char) (s e : Int) : Bool :=
  let c := charAt text s
  c.isAlphanum || (isOpenBracket c && hasCharIn text (closeOf c) (s + 1) e)

/-- Modelled from the spec (§4.2): the trailing character of span `[s, e)`
survives trimming iff it is alphanumeric, or it is a close bracket matched
by its opening bracket inside the selection. -/
def keepRight (text : List Char) (s e : Int) : Bool :=
  let c := charAt text (e - 1)
  c.isAlphanum || (isCloseBracket c && hasCharIn text (openOf c) s (e - 1))

/-- Strip the leading run of non-alphanumeric punctuation (fuel-bounded by
the span length). -/
def trimLeftAux (text : List Char) (e : Int) : ℕ → Int → Int
  | 0, s => s
  | fuel + 1, s =>
      if decide (s < e) && !keepLeft text s e then
        trimLeftAux text e fuel (s + 1)
      else s

/-- Strip the trailing run of non-alphanumeric punctuation (fuel-bounded by
the span length). -/
def trimRightAux (text : List Char) (s : Int) : ℕ → Int → Int
  | 0, e => e
  | fuel + 1, e =>
      if decide (s < e) && !keepRight text s e then
        trimRightAux text s fuel (e - 1)
      else e

/-- Modelled from the spec (§4.2): bracket/punctuation trimming — strip a
leading and a trailing run of non-alphanumeric punctuation, stripping an
unmatched bracket at either edge but preserving balanced pairs. -/
def trimSpan (text : List Char) (sp : Int × Int) : Int × Int :=
  (trimLeftAux text sp.2 (sp.2 - sp.1).toNat sp.1,
   trimRightAux text sp.1 (sp.2 - sp.1).toNat sp.2)

/-- Modelled from the spec (§4.2): trimming that would produce an empty
span is discarded — the original (pre-trim) span is returned unchanged. -/
def refineSpan (text : List Char) (sp : Int × Int) : Int × Int :=
  let t := trimSpan text sp
  if t.1 < t.2 then t else sp

/-- Start of the line (maximal newline-free run) containing position `p`. -/
def lineStart (text : List Char) (p : ℕ) : ℕ :=
  p - ((text.take p).reverse.takeWhile (fun c => c != '\n')).length

/-- End (exclusive) of the line containing position `p`. -/
def lineEnd (text : List Char) (p : ℕ) : ℕ :=
  p + ((text.drop p).takeWhile (fun c => c != '\n')).length

/-- Modelled from the spec (§4.2): newline boundary rule — clip a proposed
span to the line containing the original click point. -/
def clipToLine (text : List Char) (clickPos : Int) (sp : Int × Int) :
    Int × Int :=
  (max sp.1 (lineStart text clickPos.toNat : Int),
   min sp.2 (lineEnd text clickPos.toNat : Int))

/-- Does the `outer` span contain the `inner` span? -/
def containsSpan (outer inner : Int × Int) : Bool :=
  decide (outer.1 ≤ inner.1) && decide (inner.2 ≤ outer.2)

/-- Keep the better-scored of the running best candidate and the next
candidate (ties keep the earlier candidate). -/
def pickBetter (best : Option AnnotatedSpan) (c : AnnotatedSpan) :
    Option AnnotatedSpan :=
  match best with
  | none => some c
  | some b => if bestScore b < bestScore c then some c else some b

/-- The best-scored candidate whose span contains the requested span. -/
def bestContaining (cands : List AnnotatedSpan) (click : Int × Int) :
    Option AnnotatedSpan :=
  (cands.filter (fun c => containsSpan c.span click)).foldl pickBetter none

/-- Is a requested selection span well-formed for the given text (§4.2,
§7): non-empty text, non-negative start, non-empty non-inverted span,
end within bounds? -/
def validInput (text : List Char) (sp : Int × Int) : Bool :=
  !text.isEmpty && decide (0 ≤ sp.1) && decide (sp.1 < sp.2) &&
    decide (sp.2 ≤ (text.length : Int))

/-- Modelled from the spec: `TextClassifier::SuggestSelection` (§4.2, §6;
the C++ implementation is not in the source tree).  The scoring model and
pattern matcher are black boxes: their merged proposals enter as the
candidate list.  Degenerate/invalid input returns the requested span
verbatim; otherwise the best candidate containing the click is clipped to
the click line and trimmed, trimming-to-empty falling back to the pre-trim
span; with no candidate the requested span is returned. -/
def SuggestSelection (cands : List AnnotatedSpan) (text : List Char)
    (click : Int × Int) : Int × Int :=
  if validInput text click then
    match bestContaining cands click with
    | none => click
    | some c => refineSpan text (clipToLine text click.1 c.span)
  else click

/-- C4: for every degenerate or invalid input to suggest_selection —
empty text, an empty or inverted span (`start ≥ end`), a negative start,
or an out-of-bounds end — the operation returns the requested span
verbatim, for every candidate list (never an exception, never a crash). -/
theorem suggestSelection_invalid_verbatim (cands : List AnnotatedSpan)
    (text : List Char) (sp : Int × Int)
    (h : text = [] ∨ sp.2 ≤ sp.1 ∨ sp.1 < 0 ∨ (text.length : Int) < sp.2) :
    SuggestSelection cands text sp = sp := by
  have hv : validInput text sp = false := by
    unfold validInput
    rcases h with h | h | h | h
    · simp [h]
    · simp [not_lt.mpr h]
    · simp [not_le.mpr h]
    · simp [not_le.mpr h, h]
  unfold SuggestSelection
  rw [hv]
  simp

/-- Closed-form witness for the degenerate-input theorem, on the two junk
selections of the `SuggestSelectionNoCrashWithJunk` test: empty text with
span `(-10, 27)`, and an inverted out-of-range span `(100, 17)`. -/
theorem suggestSelection_invalid_verbatim_witness :
    SuggestSelection [] [] (-10, 27) = (-10, 27) ∧
      SuggestSelection [] ("Word 1 2 3 hello!".toList) (100, 17)
        = (100, 17) :=
  ⟨suggestSelection_invalid_verbatim [] [] (-10, 27) (Or.inl rfl),
   suggestSelection_invalid_verbatim [] ("Word 1 2 3 hello!".toList)
     (100, 17) (Or.inr (Or.inl (by norm_num)))⟩

/-- C5: if the punctuation/bracket trimming of a span would yield an empty
span, the trim is discarded and the original pre-trim span is returned
unchanged, so the refiner never emits an empty span; concretely,
suggest_selection on `"call me at )( today"` with requested span
`(11, 13)` (the text `)(`, which trims to nothing) returns `(11, 13)`. -/
theorem refine_trim_empty_fallback :
    (∀ (text : List Char) (sp : Int × Int),
      ¬ (trimSpan text sp).1 < (trimSpan text sp).2 →
        refineSpan text sp = sp) ∧
    (∀ (text : List Char) (sp : Int × Int), sp.1 < sp.2 →
      (refineSpan text sp).1 < (refineSpan text sp).2) ∧
    SuggestSelection [MakeAnnotatedSpan (11, 13) "other" 1]
      ("call me at )( today".toList) (11, 13) = (11, 13) := by
  refine ⟨?_, ?_, by decide⟩
  · intro text sp h
    unfold refineSpan
    simp only []
    rw [if_neg h]
  · intro text sp h
    unfold refineSpan
    simp only []
    by_cases ht : (trimSpan text sp).1 < (trimSpan text sp).2
    · rw [if_pos ht]; exact ht
    · rw [if_neg ht]; exact h

/-- Closed-form witness for the trim-to-empty fallback: the span
`(11, 13)` over `"call me at )( today"` trims to emptiness, so the
original span is returned, and the refiner output is non-empty. -/
theorem refine_trim_empty_fallback_witness :
    refineSpan ("call me at )( today".toList) (11, 13) = (11, 13) ∧
      (refineSpan ("call me at )( today".toList) (11, 13)).1 <
        (refineSpan ("call me at )( today".toList) (11, 13)).2 :=
  ⟨refine_trim_empty_fallback.1 ("call me at )( today".toList) (11, 13)
      (by decide),
   refine_trim_empty_fallback.2.1 ("call me at )( today".toList) (11, 13)
      (by decide)⟩

/-! ## Line-boundary facts for the newline rule -/

lemma getD_drop_eq (text : List Char) (p i : ℕ) :
    (text.drop p).getD i ' ' = text.getD (p + i) ' ' := by
  rw [List.getD_eq_getElem?_getD, List.getElem?_drop,
    ← List.getD_eq_getElem?_getD]

lemma getD_reverse_take_eq (text : List Char) (p i : ℕ)
    (hp : p ≤ text.length) (hi : i < p) :
    ((text.take p).reverse).getD i ' ' = text.getD (p - 1 - i) ' ' := by
  have hlen : (text.take p).length = p := by
    rw [List.length_take]; omega
  rw [List.getD_eq_getElem?_getD,
    List.getElem?_reverse (by rw [hlen]; exact hi), hlen,
    List.getElem?_take_of_lt (by omega), ← List.getD_eq_getElem?_getD]

lemma takeWhile_pred_getD (p : Char → Bool) :
    ∀ (l : List Char) (i : ℕ), i < (l.takeWhile p).length →
      p (l.getD i ' ') = true := by
  intro l
  induction l with
  | nil => intro i h; simp at h
  | cons x xs ih =>
      intro i h
      by_cases hx : p x = true
      · rw [List.takeWhile_cons_of_pos hx] at h
        cases i with
        | zero => simpa using hx
        | succ i' =>
            rw [List.getD_cons_succ]
            exact ih i' (by simpa using Nat.lt_of_succ_lt_succ (by simpa using h))
      · rw [List.takeWhile_cons_of_neg hx] at h
        simp at h

lemma le_length_takeWhile (p : Char → Bool) :
    ∀ (l : List Char) (m : ℕ), m ≤ l.length →
      (∀ i, i < m → p (l.getD i ' ') = true) →
      m ≤ (l.takeWhile p).length := by
  intro l
  induction l with
  | nil => intro m hm _; simpa using hm
  | cons x xs ih =>
      intro m hm hp
      cases m with
      | zero => exact Nat.zero_le _
      | succ m' =>
          have hx : p x = true := by simpa using hp 0 (Nat.succ_pos _)
          rw [List.takeWhile_cons_of_pos hx]
          simp only [List.length_cons]
          have : m' ≤ (xs.takeWhile p).length :=
            ih m' (by simpa using hm)
              (fun i hi => by simpa using hp (i + 1) (by omega))
          omega

/-- Every position strictly inside the line around `p` holds a
non-newline character. -/
lemma line_char_ne_newline (text : List Char) (p k : ℕ)
    (hp : p ≤ text.length)
    (h1 : lineStart text p ≤ k) (h2 : k < lineEnd text p) :
    text.getD k ' ' ≠ '\n' := by
  by_cases hk : k < p
  · -- position before the click: covered by the reversed-prefix run
    unfold lineStart at h1
    set l := (text.take p).reverse with hl
    set L := (l.takeWhile (fun c => c != '\n')).length with hL
    have hi : p - 1 - k < L := by omega
    have := takeWhile_pred_getD (fun c => c != '\n') l (p - 1 - k) hi
    rw [hl, getD_reverse_take_eq text p (p - 1 - k) hp (by omega)] at this
    have hkk : p - 1 - (p - 1 - k) = k := by omega
    rw [hkk] at this
    simpa using this
  · -- position at or after the click: covered by the suffix run
    unfold lineEnd at h2
    have hi : k - p < ((text.drop p).takeWhile (fun c => c != '\n')).length :=
      by omega
    have := takeWhile_pred_getD (fun c => c != '\n') (text.drop p) (k - p) hi
    rw [getD_drop_eq] at this
    have hkk : p + (k - p) = k := by omega
    rw [hkk] at this
    simpa using this

/-- Maximality of the line on the left: a newline-free stretch `[s, p)`
lies inside the line of `p`. -/
lemma lineStart_le_of_no_newline (text : List Char) (p s : ℕ)
    (hs : s ≤ p) (hp : p ≤ text.length)
    (h : ∀ k, s ≤ k → k < p → text.getD k ' ' ≠ '\n') :
    lineStart text p ≤ s := by
  unfold lineStart
  have : p - s ≤ ((text.take p).reverse.takeWhile (fun c => c != '\n')).length := by
    apply le_length_takeWhile
    · rw [List.length_reverse, List.length_take]; omega
    · intro i hi
      rw [getD_reverse_take_eq text p i hp (by omega)]
      have := h (p - 1 - i) (by omega) (by omega)
      simpa using this
  omega

/-- Maximality of the line on the right: a newline-free stretch `[p, e)`
lies inside the line of `p`. -/
lemma le_lineEnd_of_no_newline (text : List Char) (p e : ℕ)
    (hpe : p ≤ e) (he : e ≤ text.length)
    (h : ∀ k, p ≤ k → k < e → text.getD k ' ' ≠ '\n') :
    e ≤ lineEnd text p := by
  unfold lineEnd
  have : e - p ≤ ((text.drop p).takeWhile (fun c => c != '\n')).length := by
    apply le_length_takeWhile
    · rw [List.length_drop]; omega
    · intro i hi
      rw [getD_drop_eq]
      have := h (p + i) (by omega) (by omega)
      simpa using this
  omega

lemma lineStart_le_self (text : List Char) (p : ℕ) : lineStart text p ≤ p :=
  Nat.sub_le _ _

lemma self_le_lineEnd (text : List Char) (p : ℕ) : p ≤ lineEnd text p :=
  Nat.le_add_right _ _

lemma trimLeftAux_ge (text : List Char) (e : Int) :
    ∀ (fuel : ℕ) (s : Int), s ≤ trimLeftAux text e fuel s := by
  intro fuel
  induction fuel with
  | zero => intro s; exact le_of_eq rfl
  | succ f ih =>
      intro s
      unfold trimLeftAux
      split
      · exact le_trans (by omega) (ih (s + 1))
      · exact le_of_eq rfl

lemma trimRightAux_le (text : List Char) (s : Int) :
    ∀ (fuel : ℕ) (e : Int), trimRightAux text s fuel e ≤ e := by
  intro fuel
  induction fuel with
  | zero => intro e; exact le_of_eq rfl
  | succ f ih =>
      intro e
      unfold trimRightAux
      split
      · exact le_trans (ih (e - 1)) (by omega)
      · exact le_of_eq rfl

lemma refineSpan_within (text : List Char) (sp : Int × Int) :
    sp.1 ≤ (refineSpan text sp).1 ∧ (refineSpan text sp).2 ≤ sp.2 := by
  unfold refineSpan trimSpan
  by_cases ht : (trimLeftAux text sp.2 (sp.2 - sp.1).toNat sp.1,
      trimRightAux text sp.1 (sp.2 - sp.1).toNat sp.2).1 <
      (trimLeftAux text sp.2 (sp.2 - sp.1).toNat sp.1,
      trimRightAux text sp.1 (sp.2 - sp.1).toNat sp.2).2
  · rw [if_pos ht]
    exact ⟨trimLeftAux_ge text sp.2 _ sp.1, trimRightAux_le text sp.1 _ sp.2⟩
  · rw [if_neg ht]
    exact ⟨le_refl _, le_refl _⟩

/-- C6: a selection produced from a model proposal never crosses a line
break — whenever suggest_selection resolves a valid click to a candidate,
every codepoint of the returned span lies on the single line containing
the original click point (the proposal is clipped to that line); in
particular, on the phone number `"857 225\n3556\nabc"` split by a newline,
clicking `(0, 3)` returns `(0, 7)`, the part on the click's line. -/
theorem suggestSelection_newline_clip :
    (∀ (cands : List AnnotatedSpan) (text : List Char) (click : Int × Int)
      (c : AnnotatedSpan), validInput text click = true →
      bestContaining cands click = some c →
      ∀ k : ℕ, (SuggestSelection cands text click).1 ≤ (k : Int) →
        (k : Int) < (SuggestSelection cands text click).2 →
        text.getD k ' ' ≠ '\n') ∧
    SuggestSelection [MakeAnnotatedSpan (0, 12) "phone" 1]
      ("857 225\n3556\nabc".toList) (0, 3) = (0, 7) := by
  constructor
  · intro cands text click c hv hbc k hk1 hk2
    obtain ⟨⟨⟨_, h0⟩, h1⟩, h2⟩ : ((text.isEmpty = false ∧ 0 ≤ click.1) ∧
        click.1 < click.2) ∧ click.2 ≤ (text.length : Int) := by
      unfold validInput at hv
      simpa only [Bool.and_eq_true, Bool.not_eq_true',
        decide_eq_true_eq] using hv
    have hres : SuggestSelection cands text click =
        refineSpan text (clipToLine text click.1 c.span) := by
      simp [SuggestSelection, hv, hbc]
    have hp : click.1.toNat ≤ text.length := by omega
    set sp := clipToLine text click.1 c.span with hsp
    have hlow : (lineStart text click.1.toNat : Int) ≤ sp.1 :=
      le_max_right _ _
    have hhigh : sp.2 ≤ (lineEnd text click.1.toNat : Int) :=
      min_le_right _ _
    have hw := refineSpan_within text sp
    rw [hres] at hk1 hk2
    have hLS : lineStart text click.1.toNat ≤ k := by
      have h := le_trans hlow (le_trans hw.1 hk1)
      exact_mod_cast h
    have hLE : k < lineEnd text click.1.toNat := by
      have h := lt_of_lt_of_le hk2 (le_trans hw.2 hhigh)
      exact_mod_cast h
    exact line_char_ne_newline text click.1.toNat k hp hLS hLE
  · decide

/-- Closed-form witness for the newline rule: at the concrete clipped
selection of `"857 225\n3556\nabc"`, position 3 (inside the returned span
`(0, 7)`) is not a newline. -/
theorem suggestSelection_newline_clip_witness :
    ("857 225\n3556\nabc".toList).getD 3 ' ' ≠ '\n' :=
  suggestSelection_newline_clip.1 [MakeAnnotatedSpan (0, 12) "phone" 1]
    ("857 225\n3556\nabc".toList) (0, 3) (MakeAnnotatedSpan (0, 12) "phone" 1)
    (by decide) (by decide) 3 (by decide) (by decide)

lemma pickBetter_none (c : AnnotatedSpan) : pickBetter none c = some c :=
  rfl

lemma pickBetter_some (b c : AnnotatedSpan) :
    pickBetter (some b) c =
      if bestScore b < bestScore c then some c else some b :=
  rfl

/-- The fold behind `bestContaining` returns the strict maximum of the
list whenever one is present (or already accumulated). -/
lemma foldl_pickBetter_eq (W : AnnotatedSpan) :
    ∀ (l : List AnnotatedSpan) (acc : Option AnnotatedSpan),
      (W ∈ l ∨ acc = some W) →
      (∀ C ∈ l, C = W ∨ bestScore C < bestScore W) →
      (∀ b, acc = some b → b = W ∨ bestScore b < bestScore W) →
      l.foldl pickBetter acc = some W := by
  intro l
  induction l with
  | nil =>
      intro acc hmem _ _
      rcases hmem with h | h
      · exact absurd h (List.not_mem_nil W)
      · exact h
  | cons c rest ih =>
      intro acc hmem hlt hacc
      simp only [List.foldl_cons]
      have hrest : ∀ C ∈ rest, C = W ∨ bestScore C < bestScore W :=
        fun C hC => hlt C (List.mem_cons_of_mem _ hC)
      rcases hlt c (List.mem_cons_self c rest) with hcW | hc
      · -- the head is the maximum itself: the accumulator becomes `some W`
        subst hcW
        have hstep : pickBetter acc c = some c := by
          cases acc with
          | none => rfl
          | some b =>
              rcases hacc b rfl with hbW | hb
              · subst hbW
                rw [pickBetter_some, if_neg (lt_irrefl _)]
              · rw [pickBetter_some, if_pos hb]
        rw [hstep]
        exact ih (some c) (Or.inr rfl) hrest
          (fun b hb => Or.inl (by injection hb with h; exact h.symm))
      · -- the head scores strictly below the maximum
        have hW_or : W ∈ rest ∨ pickBetter acc c = some W := by
          rcases hmem with hmem | hmem
          · rcases List.mem_cons.mp hmem with hWc | hWr
            · rw [hWc] at hc
              exact absurd hc (lt_irrefl _)
            · exact Or.inl hWr
          · refine Or.inr ?_
            rw [hmem, pickBetter_some, if_neg (lt_asymm hc)]
        have hstep : ∀ b, pickBetter acc c = some b →
            b = W ∨ bestScore b < bestScore W := by
          intro b hb
          cases acc with
          | none =>
              rw [pickBetter_none] at hb
              injection hb with h
              exact Or.inr (h ▸ hc)
          | some a =>
              rw [pickBetter_some] at hb
              by_cases hac : bestScore a < bestScore c
              · rw [if_pos hac] at hb
                injection hb with h
                exact Or.inr (h ▸ hc)
              · rw [if_neg hac] at hb
                injection hb with h
                exact h ▸ hacc a rfl
        rcases hW_or with hWr | hsomeW
        · exact ih _ (Or.inl hWr) hrest hstep
        · exact ih _ (Or.inr hsomeW) hrest hstep

/-- If `W` is the strict score maximum of the candidate pool and its span
contains the click, `bestContaining` returns `W`. -/
lemma bestContaining_eq (cands : List AnnotatedSpan) (click : Int × Int)
    (W : AnnotatedSpan) (hW : W ∈ cands)
    (hcont : containsSpan W.span click = true)
    (hmax : ∀ C ∈ cands, C = W ∨ bestScore C < bestScore W) :
    bestContaining cands click = some W := by
  unfold bestContaining
  apply foldl_pickBetter_eq
  · exact Or.inl (List.mem_filter.mpr ⟨hW, hcont⟩)
  · intro C hC
    exact hmax C (List.mem_filter.mp hC).1
  · intro b hb
    cases hb

/-- Clipping to the click line is the identity on a newline-free in-range
span containing the click position. -/
lemma clipToLine_eq_of_no_newline (text : List Char) (click : Int × Int)
    (W : Int × Int)
    (h0 : 0 ≤ W.1) (hlen : W.2 ≤ (text.length : Int))
    (hc1 : W.1 ≤ click.1) (hc2 : click.1 < W.2)
    (hnl : ∀ k : ℕ, W.1 ≤ (k : Int) → (k : Int) < W.2 →
      text.getD k ' ' ≠ '\n') :
    clipToLine text click.1 W = W := by
  unfold clipToLine
  have hp : click.1.toNat ≤ text.length := by omega
  have hLS : lineStart text click.1.toNat ≤ W.1.toNat := by
    apply lineStart_le_of_no_newline text _ _ (by omega) hp
    intro k hk1 hk2
    exact hnl k (by omega) (by omega)
  have hLE : W.2.toNat ≤ lineEnd text click.1.toNat := by
    apply le_lineEnd_of_no_newline text _ _ (by omega) (by omega)
    intro k hk1 hk2
    exact hnl k (by omega) (by omega)
  have e1 : max W.1 (lineStart text click.1.toNat : Int) = W.1 :=
    max_eq_left (by omega)
  have e2 : min W.2 (lineEnd text click.1.toNat : Int) = W.2 :=
    min_eq_left (by omega)
  rw [e1, e2]

/-- C8: selection expansion is symmetric — if `W` is the winning candidate
(the strict score maximum of the pool), its span is in range, and its text
contains no line break, then every valid requested span targeting any
position inside `W`'s span yields one and the same final selection,
independent of the click. -/
theorem suggestSelection_symmetric (cands : List AnnotatedSpan)
    (text : List Char) (W : AnnotatedSpan) (hW : W ∈ cands)
    (hmax : ∀ C ∈ cands, C = W ∨ bestScore C < bestScore W)
    (h0 : 0 ≤ W.span.1) (hlen : W.span.2 ≤ (text.length : Int))
    (hnl : ∀ k : ℕ, W.span.1 ≤ (k : Int) → (k : Int) < W.span.2 →
      text.getD k ' ' ≠ '\n')
    (click : Int × Int) (hv : validInput text click = true)
    (hc1 : W.span.1 ≤ click.1) (hc2 : click.2 ≤ W.span.2) :
    SuggestSelection cands text click = refineSpan text W.span := by
  have hcont : containsSpan W.span click = true := by
    unfold containsSpan
    simp [hc1, hc2]
  have hbc := bestContaining_eq cands click W hW hcont hmax
  have hclick : click.1 < click.2 := by
    unfold validInput at hv
    simp only [Bool.and_eq_true, decide_eq_true_eq] at hv
    exact hv.1.2
  have hclip := clipToLine_eq_of_no_newline text click W.span h0 hlen hc1
    (lt_of_lt_of_le hclick hc2) hnl
  simp [SuggestSelection, hv, hbc, hclip]

/-- The candidate pool of the symmetric-expansion scenario: the address
span `(0, 27)` of `"350 Third Street, Cambridge"` is the winning phrase;
the individual tokens are weaker candidates. -/
def addressPool : List AnnotatedSpan :=
  [MakeAnnotatedSpan (0, 27) "address" 1,
   MakeAnnotatedSpan (0, 3) "other" (mkRat 1 10),
   MakeAnnotatedSpan (4, 9) "other" (mkRat 1 10),
   MakeAnnotatedSpan (10, 16) "other" (mkRat 1 10)]

/-- Closed-form witness for symmetric expansion: pointing at any of the
three sub-tokens of `"350 Third Street, Cambridge"` (spans `(0,3)`,
`(4,9)` and `(10,16)`) yields one and the same final span `(0, 27)`. -/
theorem suggestSelection_symmetric_witness :
    SuggestSelection addressPool ("350 Third Street, Cambridge".toList)
        (0, 3) = (0, 27) ∧
      SuggestSelection addressPool ("350 Third Street, Cambridge".toList)
        (4, 9) = (0, 27) ∧
      SuggestSelection addressPool ("350 Third Street, Cambridge".toList)
        (10, 16) = (0, 27) := by
  have hnl : ∀ k : ℕ,
      (MakeAnnotatedSpan (0, 27) "address" 1).span.1 ≤ (k : Int) →
      (k : Int) < (MakeAnnotatedSpan (0, 27) "address" 1).span.2 →
      ("350 Third Street, Cambridge".toList).getD k ' ' ≠ '\n' := by
    have H : ∀ k, k < 27 →
        ("350 Third Street, Cambridge".toList).getD k ' ' ≠ '\n' := by decide
    intro k _ hk2
    have hk2' : (k : Int) < 27 := hk2
    exact H k (by exact_mod_cast hk2')
  have h1 := suggestSelection_symmetric addressPool
    ("350 Third Street, Cambridge".toList)
    (MakeAnnotatedSpan (0, 27) "address" 1) (by decide) (by decide)
    (by decide) (by decide) hnl (0, 3) (by decide) (by decide) (by decide)
  have h2 := suggestSelection_symmetric addressPool
    ("350 Third Street, Cambridge".toList)
    (MakeAnnotatedSpan (0, 27) "address" 1) (by decide) (by decide)
    (by decide) (by decide) hnl (4, 9) (by decide) (by decide) (by decide)
  have h3 := suggestSelection_symmetric addressPool
    ("350 Third Street, Cambridge".toList)
    (MakeAnnotatedSpan (0, 27) "address" 1) (by decide) (by decide)
    (by decide) (by decide) hnl (10, 16) (by decide) (by decide) (by decide)
  exact ⟨h1.trans (by decide), h2.trans (by decide), h3.trans (by decide)⟩

/-! ## Model-executor construction (`utils/tflite-model-executor.h`) -/

/-- Class `TfLiteModelExecutor` from `utils/tflite-model-executor.h`: the
executor owns the loaded flatbuffer model (`model_`); the opaque TfLite
model type enters as a type parameter. -/
structure TfLiteModelExecutor (Model : Type) where
  model : Model

namespace TfLiteModelExecutor

/-- Factory `TfLiteModelExecutor::FromModelSpec` from the header: load the model
via `TfLiteModelFromModelSpec` (an external loader that may fail, i.e.
return null); on failure return null, otherwise wrap the loaded model in a
fully-constructed executor. -/
def FromModelSpec {Spec Model : Type}
    (tfLiteModelFromModelSpec : Spec → Option Model) (spec : Spec) :
    Option (TfLiteModelExecutor Model) :=
  match tfLiteModelFromModelSpec spec with
  | none => none
  | some m => some ⟨m⟩

/-- Factory `TfLiteModelExecutor::FromBuffer` from the header: the same shape,
loading from a flatbuffer byte vector via `TfLiteModelFromBuffer`. -/
def FromBuffer {Buffer Model : Type}
    (tfLiteModelFromBuffer : Buffer → Option Model) (buf : Buffer) :
    Option (TfLiteModelExecutor Model) :=
  match tfLiteModelFromBuffer buf with
  | none => none
  | some m => some ⟨m⟩

end TfLiteModelExecutor

/-- C9: construction is all-or-nothing — when the underlying model data
fails to load, engine construction returns a null result (and conversely a
null result arises only from a failed load); when construction succeeds,
the returned executor holds exactly the successfully loaded model, so no
operation can ever observe a partially-initialized instance. -/
theorem construction_all_or_nothing {Spec Buffer Model : Type}
    (loadSpec : Spec → Option Model) (loadBuf : Buffer → Option Model)
    (spec : Spec) (buf : Buffer) :
    (TfLiteModelExecutor.FromModelSpec loadSpec spec = none ↔
      loadSpec spec = none) ∧
    (∀ e, TfLiteModelExecutor.FromModelSpec loadSpec spec = some e →
      loadSpec spec = some e.model) ∧
    (TfLiteModelExecutor.FromBuffer loadBuf buf = none ↔
      loadBuf buf = none) ∧
    (∀ e, TfLiteModelExecutor.FromBuffer loadBuf buf = some e →
      loadBuf buf = some e.model) := by
  refine ⟨?_, ?_, ?_, ?_⟩
  · unfold TfLiteModelExecutor.FromModelSpec
    cases h : loadSpec spec <;> simp
  · intro e he
    unfold TfLiteModelExecutor.FromModelSpec at he
    cases h : loadSpec spec with
    | none => rw [h] at he; cases he
    | some m =>
        rw [h] at he
        injection he with he
        rw [← he]
  · unfold TfLiteModelExecutor.FromBuffer
    cases h : loadBuf buf <;> simp
  · intro e he
    unfold TfLiteModelExecutor.FromBuffer at he
    cases h : loadBuf buf with
    | none => rw [h] at he; cases he
    | some m =>
        rw [h] at he
        injection he with he
        rw [← he]

/-- Closed-form witness for all-or-nothing construction: with a failing
loader the executor is null; with a succeeding loader the constructed
executor holds the loaded model. -/
theorem construction_all_or_nothing_witness :
    TfLiteModelExecutor.FromModelSpec (fun _ : Unit => (none : Option ℕ)) ()
        = none ∧
      (fun _ : Unit => (some 7 : Option ℕ)) () =
        some (TfLiteModelExecutor.mk 7).model :=
  ⟨(construction_all_or_nothing (fun _ : Unit => (none : Option ℕ))
      (fun _ : Unit => (none : Option ℕ)) () ()).1.mpr rfl,
   (construction_all_or_nothing (fun _ : Unit => (none : Option ℕ))
      (fun _ : Unit => (some 7 : Option ℕ)) () ()).2.2.2 ⟨7⟩ rfl⟩

/-! ## Classification (`ClassifyText`) -/

/-- The junk context text of the `ClassifyText` test:
`"a\n\n\n\nx x x\n\n\n\n\n\n"` (16 codepoints). -/
def junkText : List Char :=
  "a\n\n\n\nx x x\n\n\n\n\n\n".toList

/-- Is a classification span well-formed (§6): `0 ≤ start < end ≤ len`? -/
def validClassifySpan (text : List Char) (sp : Int × Int) : Bool :=
  decide (0 ≤ sp.1) && decide (sp.1 < sp.2) &&
    decide (sp.2 ≤ (text.length : Int))

/-- Modelled from the spec: `TextClassifier::ClassifyText` (§6, §7; the
C++ implementation is not in the source tree) — empty on an invalid span
(`start ≥ end` or out of range); otherwise the ordered result list of the
black-box scoring model, which is itself empty when the model finds no
confident classification — a legitimate no-match outcome, not an error. -/
def ClassifyText
    (scorer : List Char → Int × Int → List ClassificationResult)
    (text : List Char) (sp : Int × Int) : List ClassificationResult :=
  if validClassifySpan text sp then scorer text sp else []

/-- C10: an empty ClassifyText result is not limited to invalid spans:
the span `(1, 5)` of the junk text `"a\n\n\n\nx x x\n\n\n\n\n\n"` is
well-formed, in range and non-empty, yet classification returns the empty
list whenever the scoring model finds nothing confident there (as the test
records for this input); whereas a valid single-word span over
unrecognized text (`"asdf"`, span `(0, 4)`) returns the model's non-empty
result whose best label is "other". -/
theorem classifyText_empty_not_only_invalid :
    validClassifySpan junkText (1, 5) = true ∧
    (∀ scorer, scorer junkText (1, 5) = [] →
      ClassifyText scorer junkText (1, 5) = []) ∧
    (∀ scorer, FirstResult (scorer ("asdf".toList) (0, 4)) = "other" →
      FirstResult (ClassifyText scorer ("asdf".toList) (0, 4)) = "other" ∧
        ClassifyText scorer ("asdf".toList) (0, 4) ≠ []) := by
  refine ⟨by decide, ?_, ?_⟩
  · intro scorer h
    unfold ClassifyText
    rw [show validClassifySpan junkText (1, 5) = true from by decide]
    simpa using h
  · intro scorer h
    unfold ClassifyText
    rw [show validClassifySpan ("asdf".toList) (0, 4) = true from by decide]
    simp only [if_true]
    refine ⟨h, ?_⟩
    intro hnil
    rw [hnil] at h
    exact absurd h (by decide)

/-- Closed-form witness for the classification contract: a no-match
scorer yields the empty result on the valid junk span, and an
"other"-scorer yields a non-empty "other" result on the single word. -/
theorem classifyText_empty_not_only_invalid_witness :
    ClassifyText (fun _ _ => []) junkText (1, 5) = [] ∧
      FirstResult (ClassifyText
        (fun _ _ => [⟨"other", mkRat 3 10⟩]) ("asdf".toList) (0, 4))
        = "other" :=
  ⟨classifyText_empty_not_only_invalid.2.1 (fun _ _ => []) rfl,
   (classifyText_empty_not_only_invalid.2.2
      (fun _ _ => [⟨"other", mkRat 3 10⟩]) rfl).1⟩

end TextClassifier
